import Mathlib

/-!
# Verification of the stellar-sdk-adv keypair core

Shallow embedding of `src/keypair.rs` together with the StrKey text codec
it relies on.  Bytes are modelled as `Nat` values below 256 and byte
buffers as `List Nat`.  The external cryptographic primitives consumed by
the source (`nacl::sign::generate_keypair`, `nacl::sign::signature`,
`nacl::sign::verify`, `ed25519_dalek::Sha512`) are not part of this
repository; every operation that calls them is parameterised by an
explicit function standing for the primitive, so theorems quantify over
the primitive and, where needed, assume only its documented contract.

Rust `Result<T, anyhow::Error>` becomes `Except String T` carrying the
exact `bail!` message; a Rust panic (out-of-bounds indexing, `unwrap` of
an `Err`) is modelled by an outer `Option`, with `none` marking the
aborted execution.
-/

set_option maxRecDepth 2000

namespace StellarSdkAdv

/-- Base-32 alphabet of the StrKey text encoding, 32 characters, value i
encoded by the character at index i.  Modelled from the spec: the
`str_key` module is not among the provided sources; §4.1/§6 of the spec
describe the codec ("encoded with a 5-bit alphabet (unpadded, case-fixed)
into a string"). -/
def b32Alphabet : List Char :=
  ['A', 'B', 'C', 'D', 'E', 'F', 'G', 'H', 'I', 'J', 'K', 'L', 'M',
   'N', 'O', 'P', 'Q', 'R', 'S', 'T', 'U', 'V', 'W', 'X', 'Y', 'Z',
   '2', '3', '4', '5', '6', '7']

/-- Character encoding one 5-bit digit. -/
def digitToChar (d : Nat) : Char := b32Alphabet.getD d 'A'

/-- Digit value of an alphabet character, `none` for a character outside
the alphabet. -/
def charToDigit (c : Char) : Option Nat :=
  b32Alphabet.findIdx? (fun a => a == c)

/-- Digit values of a text, `none` as soon as one character is not in the
alphabet. -/
def charsToDigits : List Char → Option (List Nat)
  | [] => some []
  | c :: cs =>
    match charToDigit c, charsToDigits cs with
    | some d, some ds => some (d :: ds)
    | _, _ => none

/-- Value of a most-significant-first digit string in base `b`. -/
def digitsToNat (b : Nat) (ds : List Nat) : Nat :=
  ds.foldl (fun a d => a * b + d) 0

/-- The `k` low-order base-`b` digits of `n`, most significant first. -/
def natToDigits (b : Nat) : Nat → Nat → List Nat
  | 0, _ => []
  | k + 1, n => natToDigits b k (n / b) ++ [n % b]

/-- One shift step of CRC16-XMODEM: shift left, reduce by the polynomial
0x1021 when the top bit was set, keep 16 bits. -/
def crc16Step (crc : Nat) : Nat :=
  if crc.testBit 15 then ((crc * 2) ^^^ 0x1021) % 65536 else (crc * 2) % 65536

/-- CRC16-XMODEM absorption of one byte: xor the byte into the high half,
then eight polynomial shift steps. -/
def crc16Byte (crc b : Nat) : Nat :=
  crc16Step (crc16Step (crc16Step (crc16Step
    (crc16Step (crc16Step (crc16Step (crc16Step (crc ^^^ (b * 256)))))))))

/-- CRC16-XMODEM of a byte sequence, initial value 0.  Modelled from the
spec: "a 2-byte, little-endian CRC16-XMODEM over versionByte ‖ payload". -/
def crc16 (data : List Nat) : Nat := data.foldl crc16Byte 0

/-- StrKey encoding.  Modelled from the spec: build
`versionByte ‖ payload ‖ checksum` with the little-endian CRC16-XMODEM
checksum and base-32 encode the concatenation (35 bytes = 280 bits = 56
digits for a 32-byte payload); total, so it "never fails for a 32-byte
payload". -/
def encode_check (version : Nat) (payload : List Nat) : List Char :=
  let data := version :: payload
  let c := crc16 data
  let full := data ++ [c % 256, c / 256]
  (natToDigits 32 (full.length * 8 / 5) (digitsToNat 256 full)).map digitToChar

/-- StrKey decoding.  Modelled from the spec: base-32 decode, fail with
`InvalidLength` if the byte length is wrong, `InvalidVersion` if the
leading byte differs from the expected version byte, `InvalidChecksum` if
the trailing two bytes differ from the recomputed little-endian
CRC16-XMODEM of `versionByte ‖ payload`. -/
def decode_check (expectedVersion : Nat) (text : List Char) : Except String (List Nat) :=
  match charsToDigits text with
  | none => Except.error "InvalidCharacter"
  | some ds =>
    let bytes := natToDigits 256 (text.length * 5 / 8) (digitsToNat 32 ds)
    if bytes.length = 35 then
      let payload := (bytes.drop 1).take 32
      let checksum := bytes.drop 33
      if bytes.headD 0 = expectedVersion then
        if checksum =
            [crc16 (expectedVersion :: payload) % 256,
             crc16 (expectedVersion :: payload) / 256] then
          Except.ok payload
        else Except.error "InvalidChecksum"
      else Except.error "InvalidVersion"
    else Except.error "InvalidLength"

/-- Version byte of an Ed25519 public key (6 <<< 3 = 48, leading 'G' in the
test vectors).  Modelled from the spec: "one identifies an Ed25519 public
key". -/
def versionEd25519PublicKey : Nat := 48

/-- Version byte of an Ed25519 secret seed (18 <<< 3 = 144, leading 'S' in
the test vectors).  Modelled from the spec: "another an Ed25519 secret
seed". -/
def versionEd25519SecretSeed : Nat := 144

/-- StrKey decoding of a secret seed (`StrKey::decode_ed25519_secret_seed`). -/
def decode_ed25519_secret_seed (text : List Char) : Except String (List Nat) :=
  decode_check versionEd25519SecretSeed text

/-- StrKey decoding of a public key (`StrKey::decode_ed25519_public_key`). -/
def decode_ed25519_public_key (text : List Char) : Except String (List Nat) :=
  decode_check versionEd25519PublicKey text

/-- The `Keypair` struct of `src/keypair.rs`: a public key plus optional
secret material. -/
structure Keypair where
  public_key : List Nat
  secret_key : Option (List Nat)
  secret_seed : Option (List Nat)
  deriving DecidableEq, Repr

/-- `Keypair::new_from_secret_key`.  `gen` stands for the external
`nacl::sign::generate_keypair`, returning the 32-byte public key derived
from a 32-byte seed.  The Rust drains a clone of the seed into
`secret_key = seed ‖ pk` and stores the untouched original as
`secret_seed`. -/
def new_from_secret_key (gen : List Nat → List Nat) (secret_seed : List Nat) :
    Except String Keypair :=
  if secret_seed.length ≠ 32 then Except.error "secret_key length is invalid"
  else
    let pk := gen secret_seed
    Except.ok { public_key := pk
                secret_key := some (secret_seed ++ pk)
                secret_seed := some secret_seed }

/-- The nonce-mutated seed: the source loop replaces byte `i` by
`seed[i] + nonce[i]` with wrapping `u8` addition for every `i` below the
nonce length and keeps the remaining bytes. -/
def noncedSeed (seed nonce : List Nat) : List Nat :=
  (List.zipWith (fun s n => (s + n) % 256) seed nonce) ++ seed.drop nonce.length

/-- `Keypair::new_from_secret_key_with_nonce`.  Two behaviours of the Rust
are modelled exactly: the loop indexes `nonced_secret_key[i]` for every
`i` below the nonce length, so a nonce longer than the 32-byte buffer
panics (outer `none`); and `secret_key.append(&mut nonced_secret_key)`
drains its argument, so the subsequent `Some(nonced_secret_key)` stores
an empty vector as `secret_seed`. -/
def new_from_secret_key_with_nonce (gen : List Nat → List Nat)
    (secret_seed nonce : List Nat) : Option (Except String Keypair) :=
  if secret_seed.length ≠ 32 then some (Except.error "secret_key length is invalid")
  else if secret_seed.length < nonce.length then none
  else
    let ns := noncedSeed secret_seed nonce
    let pk := gen ns
    some (Except.ok { public_key := pk
                      secret_key := some (ns ++ pk)
                      secret_seed := some [] })

/-- `Keypair::new_from_public_key`. -/
def new_from_public_key (public_key : List Nat) : Except String Keypair :=
  if public_key.length ≠ 32 then Except.error "public_key length is invalid"
  else
    Except.ok { public_key := public_key
                secret_key := none
                secret_seed := none }

/-- `Keypair::from_raw_ed25519_seed` (the `to_vec` copy is the identity on
the model). -/
def from_raw_ed25519_seed (gen : List Nat → List Nat) (seed : List Nat) :
    Except String Keypair :=
  new_from_secret_key gen seed

/-- `Keypair::from_raw_ed25519_seed_with_nonce`. -/
def from_raw_ed25519_seed_with_nonce (gen : List Nat → List Nat)
    (seed nonce : List Nat) : Option (Except String Keypair) :=
  new_from_secret_key_with_nonce gen seed nonce

/-- `Keypair::from_secret_key` (text entry point): decode the StrKey
secret-seed text, propagate its error, then direct derivation. -/
def from_secret_key (gen : List Nat → List Nat) (secret : List Char) :
    Except String Keypair :=
  match decode_ed25519_secret_seed secret with
  | Except.error e => Except.error e
  | Except.ok raw_secret => from_raw_ed25519_seed gen raw_secret

/-- `Keypair::from_public_key` (text entry point): decode the StrKey
public-key text, reject a decoded key that is not 32 bytes, construct a
public-only keypair inline. -/
def from_public_key (text : List Char) : Except String Keypair :=
  match decode_ed25519_public_key text with
  | Except.error e => Except.error e
  | Except.ok decoded =>
    if decoded.length ≠ 32 then Except.error "Invalid Stellar public key"
    else
      Except.ok { public_key := decoded
                  secret_key := none
                  secret_seed := none }

/-- External `ed25519_dalek::SecretKey::from_bytes`: succeeds exactly on a
32-byte input (dalek rejects every other length with a length error). -/
def secretKey_from_bytes (bytes : List Nat) : Option (List Nat) :=
  if bytes.length = 32 then some bytes else none

/-- `Keypair::from_secret_master_key`.  `sha512fn` stands for the external
`ed25519_dalek::Sha512`; the source chains the decoded seed and then the
nonce text into one digest, slices its first 32 bytes (a panic if the
digest were shorter, modelled `none`), checks them through
`SecretKey::from_bytes(..).unwrap()` (panic on `Err`, modelled `none`)
and runs `from_raw_ed25519_seed` on the slice.  `nonce` is the UTF-8 byte
sequence of the Rust `&str` nonce. -/
def from_secret_master_key (gen sha512fn : List Nat → List Nat)
    (secret : List Char) (nonce : List Nat) : Option (Except String Keypair) :=
  match decode_ed25519_secret_seed secret with
  | Except.error e => some (Except.error e)
  | Except.ok raw_secret =>
    let digest := sha512fn (raw_secret ++ nonce)
    if digest.length < 32 then none
    else
      let seed := digest.take 32
      match secretKey_from_bytes seed with
      | none => none
      | some _ => some (from_raw_ed25519_seed gen seed)

/-- `Keypair::random`: the 32 bytes drawn from the process CSPRNG
(`rand::random::<[u8; 32]>`) are modelled as the explicit input
`randomBytes`; the source then runs direct derivation on them. -/
def random (gen : List Nat → List Nat) (randomBytes : List Nat) :
    Except String Keypair :=
  new_from_secret_key gen randomBytes

/-- `Keypair::can_sign`: presence of the expanded secret key. -/
def Keypair.can_sign (kp : Keypair) : Bool := kp.secret_key.isSome

/-- `Keypair::sign`.  `sigPrim` stands for the external
`nacl::sign::signature(data, secret_key)`; its `Err` is modelled as
`none`. -/
def Keypair.sign (sigPrim : List Nat → List Nat → Option (List Nat))
    (kp : Keypair) (data : List Nat) : Except String (List Nat) :=
  if kp.can_sign = false then Except.error "cannot sign, no secret_key available"
  else
    match kp.secret_key with
    | some s =>
      match sigPrim data s with
      | none => Except.error "error while signing"
      | some m => Except.ok m
    | none => Except.error "error while signing"

/-- `Keypair::verify`.  `verPrim` stands for the external
`nacl::sign::verify(signature, data, pkey)` turned into its `is_ok`
boolean. -/
def Keypair.verify (verPrim : List Nat → List Nat → List Nat → Bool)
    (kp : Keypair) (data sig : List Nat) : Bool :=
  verPrim sig data kp.public_key

/-! ## Arithmetic lemmas about the base conversions and the checksum -/

theorem natToDigits_length (b k n : Nat) : (natToDigits b k n).length = k := by
  induction k generalizing n with
  | zero => rfl
  | succ k ih => simp [natToDigits, ih]

theorem natToDigits_lt (b k n : Nat) (hb : 0 < b) :
    ∀ d ∈ natToDigits b k n, d < b := by
  induction k generalizing n with
  | zero => simp [natToDigits]
  | succ k ih =>
    intro d hd
    simp only [natToDigits, List.mem_append, List.mem_singleton] at hd
    rcases hd with h | h
    · exact ih _ d h
    · exact h ▸ Nat.mod_lt _ hb

theorem digitsToNat_append (b : Nat) (ds : List Nat) (d : Nat) :
    digitsToNat b (ds ++ [d]) = digitsToNat b ds * b + d := by
  simp [digitsToNat, List.foldl_append]

theorem digitsToNat_natToDigits (b k n : Nat) (hb : 1 < b) (h : n < b ^ k) :
    digitsToNat b (natToDigits b k n) = n := by
  induction k generalizing n with
  | zero =>
    simp only [pow_zero, Nat.lt_one_iff] at h
    simp [natToDigits, digitsToNat, h]
  | succ k ih =>
    have hb0 : 0 < b := Nat.lt_of_lt_of_le Nat.zero_lt_one (Nat.le_of_lt hb)
    have hdiv : n / b < b ^ k := by
      rw [Nat.div_lt_iff_lt_mul hb0]
      calc n < b ^ (k + 1) := h
        _ = b ^ k * b := pow_succ b k
    rw [natToDigits, digitsToNat_append, ih _ hdiv, Nat.mul_comm]
    exact Nat.div_add_mod n b

theorem natToDigits_digitsToNat (b : Nat) (hb : 1 < b) (ds : List Nat)
    (h : ∀ d ∈ ds, d < b) :
    natToDigits b ds.length (digitsToNat b ds) = ds := by
  have hb0 : 0 < b := Nat.lt_of_lt_of_le Nat.zero_lt_one (Nat.le_of_lt hb)
  induction ds using List.reverseRecOn with
  | nil => rfl
  | append_singleton ds d ih =>
    have hd : d < b := h d (by simp)
    have hds : ∀ x ∈ ds, x < b := fun x hx => h x (by simp [hx])
    have hmod : (digitsToNat b ds * b + d) % b = d := by
      rw [Nat.mul_comm, Nat.mul_add_mod, Nat.mod_eq_of_lt hd]
    have hdiv : (digitsToNat b ds * b + d) / b = digitsToNat b ds := by
      rw [Nat.mul_comm (digitsToNat b ds) b, Nat.mul_add_div hb0,
        Nat.div_eq_of_lt hd, Nat.add_zero]
    rw [digitsToNat_append, List.length_append, List.length_singleton,
      natToDigits, hmod, hdiv, ih hds]

theorem foldl_digits_lt (b : Nat) (ds : List Nat) :
    ∀ a, (∀ d ∈ ds, d < b) →
      List.foldl (fun x d => x * b + d) a ds < (a + 1) * b ^ ds.length := by
  induction ds with
  | nil => intro a _; simp [Nat.lt_succ_self a]
  | cons d ds ih =>
    intro a h
    have hd : d < b := h d (by simp)
    have hds : ∀ x ∈ ds, x < b := fun x hx => h x (by simp [hx])
    calc List.foldl (fun x d => x * b + d) (a * b + d) ds
        < (a * b + d + 1) * b ^ ds.length := ih (a * b + d) hds
      _ ≤ ((a + 1) * b) * b ^ ds.length := by
          have h1 : a * b + d + 1 ≤ (a + 1) * b := by
            have h2 : (a + 1) * b = a * b + b := by ring
            rw [h2, Nat.add_assoc]
            exact Nat.add_le_add_left hd _
          exact Nat.mul_le_mul_right _ h1
      _ = (a + 1) * b ^ (ds.length + 1) := by ring
      _ = (a + 1) * b ^ (d :: ds).length := by rw [List.length_cons]

theorem digitsToNat_lt (b : Nat) (ds : List Nat)
    (h : ∀ d ∈ ds, d < b) : digitsToNat b ds < b ^ ds.length := by
  have := foldl_digits_lt b ds 0 h
  simpa [digitsToNat] using this

theorem crc16Step_lt (x : Nat) : crc16Step x < 65536 := by
  unfold crc16Step
  split <;> exact Nat.mod_lt _ (by norm_num)

theorem crc16Byte_lt (crc b : Nat) : crc16Byte crc b < 65536 :=
  crc16Step_lt _

theorem crc16_foldl_lt (data : List Nat) :
    ∀ acc, acc < 65536 → List.foldl crc16Byte acc data < 65536 := by
  induction data with
  | nil => intro acc h; exact h
  | cons d ds ih => intro acc _; exact ih _ (crc16Byte_lt acc d)

theorem crc16_lt (data : List Nat) : crc16 data < 65536 :=
  crc16_foldl_lt data 0 (by norm_num)

theorem charToDigit_digitToChar : ∀ d < 32, charToDigit (digitToChar d) = some d := by
  decide

theorem charsToDigits_map (ds : List Nat) (h : ∀ d ∈ ds, d < 32) :
    charsToDigits (ds.map digitToChar) = some ds := by
  induction ds with
  | nil => rfl
  | cons d ds ih =>
    have hd := charToDigit_digitToChar d (h d (by simp))
    have hds := ih (fun x hx => h x (by simp [hx]))
    simp [charsToDigits, hd, hds]

/-! ## The text codec round-trips -/

theorem decode_encode_check (v : Nat) (p : List Nat)
    (hv : v < 256) (hp : p.length = 32) (hb : ∀ x ∈ p, x < 256) :
    decode_check v (encode_check v p) = Except.ok p := by
  have hc : crc16 (v :: p) < 65536 := crc16_lt _
  have hc1 : crc16 (v :: p) % 256 < 256 := Nat.mod_lt _ (by norm_num)
  have hc2 : crc16 (v :: p) / 256 < 256 := Nat.div_lt_of_lt_mul (by omega)
  have hfl : ((v :: p) ++ [crc16 (v :: p) % 256, crc16 (v :: p) / 256]).length = 35 := by
    simp [hp]
  have hfb : ∀ x ∈ (v :: p) ++ [crc16 (v :: p) % 256, crc16 (v :: p) / 256], x < 256 := by
    intro x hx
    simp only [List.mem_append, List.mem_cons, List.mem_singleton,
      List.not_mem_nil, or_false] at hx
    rcases hx with (h | h) | (h | h)
    · exact h ▸ hv
    · exact hb x h
    · exact h ▸ hc1
    · exact h ▸ hc2
  have hN : digitsToNat 256 ((v :: p) ++ [crc16 (v :: p) % 256, crc16 (v :: p) / 256])
      < 256 ^ 35 := by
    have h0 := digitsToNat_lt 256 _ hfb
    rwa [hfl] at h0
  have hpow : (256 : Nat) ^ 35 = 32 ^ 56 := by
    rw [show (256 : Nat) = 2 ^ 8 from rfl, show (32 : Nat) = 2 ^ 5 from rfl,
      ← pow_mul, ← pow_mul]
  have henc : encode_check v p =
      (natToDigits 32 56
        (digitsToNat 256 ((v :: p) ++ [crc16 (v :: p) % 256, crc16 (v :: p) / 256]))).map
        digitToChar := by
    simp only [encode_check]
    norm_num [hp]
  have hdigits_lt : ∀ d ∈ natToDigits 32 56
      (digitsToNat 256 ((v :: p) ++ [crc16 (v :: p) % 256, crc16 (v :: p) / 256])), d < 32 :=
    natToDigits_lt 32 56 _ (by norm_num)
  have hmap := charsToDigits_map _ hdigits_lt
  have hval : digitsToNat 32 (natToDigits 32 56
      (digitsToNat 256 ((v :: p) ++ [crc16 (v :: p) % 256, crc16 (v :: p) / 256]))) =
      digitsToNat 256 ((v :: p) ++ [crc16 (v :: p) % 256, crc16 (v :: p) / 256]) :=
    digitsToNat_natToDigits 32 56 _ (by norm_num) (hpow ▸ hN)
  have htl : ((natToDigits 32 56
      (digitsToNat 256 ((v :: p) ++ [crc16 (v :: p) % 256, crc16 (v :: p) / 256]))).map
      digitToChar).length = 56 := by
    simp [natToDigits_length]
  have hbytes : natToDigits 256 35
      (digitsToNat 256 ((v :: p) ++ [crc16 (v :: p) % 256, crc16 (v :: p) / 256])) =
      (v :: p) ++ [crc16 (v :: p) % 256, crc16 (v :: p) / 256] := by
    have h0 := natToDigits_digitsToNat 256 (by norm_num) _ hfb
    rwa [hfl] at h0
  have hdrop1 : ((v :: p) ++ [crc16 (v :: p) % 256, crc16 (v :: p) / 256]).drop 1 =
      p ++ [crc16 (v :: p) % 256, crc16 (v :: p) / 256] := rfl
  have htake : (p ++ [crc16 (v :: p) % 256, crc16 (v :: p) / 256]).take 32 = p := by
    rw [← hp, List.take_left]
  have hdrop33 : ((v :: p) ++ [crc16 (v :: p) % 256, crc16 (v :: p) / 256]).drop 33 =
      [crc16 (v :: p) % 256, crc16 (v :: p) / 256] := by
    have h33 : (33 : Nat) = p.length + 1 := by omega
    rw [List.cons_append, h33, List.drop_succ_cons, List.drop_left]
  simp only [List.cons_append] at henc hmap htl hval hbytes hfl hdrop33
  rw [henc]
  simp only [decode_check, hmap, htl, hval]
  norm_num
  rw [hbytes]
  simp [hfl, htake, hdrop33]

/-- C3: for every valid version byte `v` and every 32-byte payload `p`,
the text codec satisfies `decode (encode v p) v = p`; `encode` is a total
function, so it never fails on a 32-byte payload. -/
theorem c3_decode_encode_roundtrip (v : Nat) (p : List Nat)
    (hv : v < 256) (hp : p.length = 32) (hb : ∀ x ∈ p, x < 256) :
    decode_check v (encode_check v p) = Except.ok p :=
  decode_encode_check v p hv hp hb

/-- Closed witness for C3 at version byte 48 and the all-zero payload. -/
theorem c3_roundtrip_witness :
    decode_check 48 (encode_check 48 (List.replicate 32 0)) =
      Except.ok (List.replicate 32 0) :=
  c3_decode_encode_roundtrip 48 (List.replicate 32 0) (by norm_num) (by simp)
    (by intro x hx; rw [List.eq_of_mem_replicate hx]; norm_num)

/-! ## Shape lemmas for the keypair factories -/

theorem new_from_secret_key_ok (gen : List Nat → List Nat) (s : List Nat)
    (kp : Keypair) (h : new_from_secret_key gen s = Except.ok kp) :
    kp.public_key = gen s ∧ kp.secret_key = some (s ++ gen s) ∧
      kp.secret_seed = some s := by
  simp only [new_from_secret_key] at h
  split at h
  · simp at h
  · injection h with h
    subst h
    exact ⟨rfl, rfl, rfl⟩

theorem new_from_secret_key_with_nonce_ok (gen : List Nat → List Nat)
    (s n : List Nat) (kp : Keypair)
    (h : new_from_secret_key_with_nonce gen s n = some (Except.ok kp)) :
    kp.public_key = gen (noncedSeed s n) ∧
      kp.secret_key = some (noncedSeed s n ++ gen (noncedSeed s n)) ∧
      kp.secret_seed = some [] := by
  simp only [new_from_secret_key_with_nonce] at h
  split at h
  · simp at h
  · split at h
    · simp at h
    · injection h with h
      injection h with h
      subst h
      exact ⟨rfl, rfl, rfl⟩

theorem new_from_public_key_ok (p0 : List Nat) (kp : Keypair)
    (h : new_from_public_key p0 = Except.ok kp) :
    kp.public_key = p0 ∧ kp.secret_key = none ∧ kp.secret_seed = none := by
  simp only [new_from_public_key] at h
  split at h
  · simp at h
  · injection h with h
    subst h
    exact ⟨rfl, rfl, rfl⟩

theorem from_public_key_ok (tp : List Char) (kp : Keypair)
    (h : from_public_key tp = Except.ok kp) :
    kp.secret_key = none ∧ kp.secret_seed = none := by
  simp only [from_public_key] at h
  split at h
  · simp at h
  · split at h
    · simp at h
    · injection h with h
      subst h
      exact ⟨rfl, rfl⟩

theorem from_secret_key_ok (gen : List Nat → List Nat) (t : List Char)
    (kp : Keypair) (h : from_secret_key gen t = Except.ok kp) :
    ∃ s, kp.public_key = gen s ∧ kp.secret_key = some (s ++ gen s) ∧
      kp.secret_seed = some s := by
  simp only [from_secret_key] at h
  split at h
  · simp at h
  · exact ⟨_, new_from_secret_key_ok _ _ _ h⟩

theorem from_secret_master_key_ok (gen sha512fn : List Nat → List Nat)
    (t : List Char) (nb : List Nat) (kp : Keypair)
    (h : from_secret_master_key gen sha512fn t nb = some (Except.ok kp)) :
    ∃ s, kp.public_key = gen s ∧ kp.secret_key = some (s ++ gen s) ∧
      kp.secret_seed = some s := by
  simp only [from_secret_master_key] at h
  split at h
  · simp at h
  · split at h
    · simp at h
    · split at h
      · simp at h
      · injection h with h
        exact ⟨_, new_from_secret_key_ok _ _ _ h⟩

/-! ## Claim C1: the WithNonce factories store a drained, empty secret seed -/

/-- C1 fails on the code: `secret_key.append(&mut nonced_secret_key)` drains
the nonced seed, so `from_raw_ed25519_seed_with_nonce` stores `Some(vec![])`
— zero bytes, not 32 — as `secret_seed`, and in particular the stored
public key is not the derivation of the stored seed. -/
theorem c1_with_nonce_stores_empty_seed :
    ∃ kp, from_raw_ed25519_seed_with_nonce (fun _ => List.replicate 32 1)
        (List.replicate 32 0) [1] = some (Except.ok kp)
      ∧ kp.secret_seed = some []
      ∧ kp.public_key = List.replicate 32 1 :=
  ⟨_, rfl, rfl, rfl⟩

/-! ## Claim C2: a nonce longer than 32 bytes panics -/

/-- C2 fails on the code: with a 33-byte nonce the mutation loop indexes
the 32-byte buffer out of bounds, a Rust panic (modelled `none`), instead
of returning a typed `NonceTooLong` error. -/
theorem c2_long_nonce_panics :
    from_raw_ed25519_seed_with_nonce (fun _ => List.replicate 32 1)
      (List.replicate 32 0) (List.replicate 33 7) = none := rfl

/-! ## Claim C4: sign/verify round-trip through the façade -/

/-- C4: for a keypair holding the expanded secret `s ‖ gen s` and public
key `gen s` — the shape every secret-holding factory produces — and any
message, `verify (message, sign message)` is true, assuming only the
external primitive's contract: signing with a well-formed expanded secret
succeeds and its signatures verify under the matching public key. -/
theorem c4_sign_verify_roundtrip (gen : List Nat → List Nat)
    (sigPrim : List Nat → List Nat → Option (List Nat))
    (verPrim : List Nat → List Nat → List Nat → Bool)
    (s msg : List Nat) (kp : Keypair)
    (hpk : kp.public_key = gen s) (hsk : kp.secret_key = some (s ++ gen s))
    (hsome : (sigPrim msg (s ++ gen s)).isSome = true)
    (hver : ∀ sg, sigPrim msg (s ++ gen s) = some sg →
      verPrim sg msg (gen s) = true) :
    ∃ sg, kp.sign sigPrim msg = Except.ok sg ∧
      kp.verify verPrim msg sg = true := by
  obtain ⟨sg, hsg⟩ := Option.isSome_iff_exists.mp hsome
  refine ⟨sg, ?_, ?_⟩
  · simp [Keypair.sign, Keypair.can_sign, hsk, hsg]
  · rw [Keypair.verify, hpk]
    exact hver sg hsg

/-- Closed witness for C4 with dummy primitives satisfying the contract. -/
theorem c4_roundtrip_witness :
    ∃ sg, Keypair.sign (fun _ sk => some sk)
        { public_key := [0], secret_key := some [0, 0], secret_seed := some [0] }
        [5] = Except.ok sg ∧
      Keypair.verify (fun sg _ pk => sg == pk ++ pk)
        { public_key := [0], secret_key := some [0, 0], secret_seed := some [0] }
        [5] sg = true :=
  c4_sign_verify_roundtrip (fun _ => [0]) (fun _ sk => some sk)
    (fun sg _ pk => sg == pk ++ pk) [0] [5]
    { public_key := [0], secret_key := some [0, 0], secret_seed := some [0] }
    rfl rfl rfl (fun sg h => by injection h with h; subst h; rfl)

/-! ## Claim C5: master-key derivation hashes seed ‖ nonce and reuses direct derivation -/

/-- C5: whenever the secret-seed text decodes to `raw`,
`from_secret_master_key` computes the SHA-512 digest of `raw ‖ nonce`,
takes its first 32 bytes and runs direct derivation on them; only the
external digest's documented length (at least 32 bytes) is assumed. -/
theorem c5_master_key_hashed_nonce (gen sha512fn : List Nat → List Nat)
    (text : List Char) (nonce raw : List Nat)
    (hdec : decode_ed25519_secret_seed text = Except.ok raw)
    (hlen : 32 ≤ (sha512fn (raw ++ nonce)).length) :
    from_secret_master_key gen sha512fn text nonce =
      some (from_raw_ed25519_seed gen ((sha512fn (raw ++ nonce)).take 32)) := by
  simp only [from_secret_master_key, hdec]
  rw [if_neg (not_lt.mpr hlen)]
  have h2 : secretKey_from_bytes ((sha512fn (raw ++ nonce)).take 32) =
      some ((sha512fn (raw ++ nonce)).take 32) := by
    simp [secretKey_from_bytes, List.length_take, Nat.min_eq_left hlen]
  rw [h2]

/-- Closed witness for C5 with a concrete encoded seed and constant
stand-ins for the external primitives. -/
theorem c5_master_key_witness :
    from_secret_master_key (fun _ => List.replicate 32 2) (fun _ => List.replicate 64 0)
        (encode_check 144 (List.replicate 32 0)) [1, 2] =
      some (from_raw_ed25519_seed (fun _ => List.replicate 32 2)
        ((List.replicate 64 0).take 32)) :=
  c5_master_key_hashed_nonce (fun _ => List.replicate 32 2)
    (fun _ => List.replicate 64 0) (encode_check 144 (List.replicate 32 0))
    [1, 2] (List.replicate 32 0)
    (decode_encode_check 144 (List.replicate 32 0) (by norm_num) (by simp)
      (by intro x hx; rw [List.eq_of_mem_replicate hx]; norm_num))
    (by simp)

/-! ## Claim C6: additive-nonce derivation versus direct derivation of the mutated seed -/

/-- C6 fails on the code: on seed 0…0 and nonce [2] the WithNonce factory
and direct derivation of the mutated seed 2,0,…,0 agree on `public_key`
and `secret_key` but produce different keypairs, because the WithNonce
path stores the drained empty vector as `secret_seed` while direct
derivation stores the seed itself. -/
theorem c6_with_nonce_differs_from_direct :
    from_raw_ed25519_seed_with_nonce (fun _ => List.replicate 32 3)
        (List.replicate 32 0) [2] =
      some (Except.ok { public_key := List.replicate 32 3
                        secret_key := some ((2 :: List.replicate 31 0) ++ List.replicate 32 3)
                        secret_seed := some [] })
    ∧ from_raw_ed25519_seed (fun _ => List.replicate 32 3) (2 :: List.replicate 31 0) =
      Except.ok { public_key := List.replicate 32 3
                  secret_key := some ((2 :: List.replicate 31 0) ++ List.replicate 32 3)
                  secret_seed := some (2 :: List.replicate 31 0) }
    ∧ ({ public_key := List.replicate 32 3
         secret_key := some ((2 :: List.replicate 31 0) ++ List.replicate 32 3)
         secret_seed := some [] } : Keypair) ≠
      { public_key := List.replicate 32 3
        secret_key := some ((2 :: List.replicate 31 0) ++ List.replicate 32 3)
        secret_seed := some (2 :: List.replicate 31 0) } :=
  ⟨rfl, rfl, by decide⟩

/-! ## Claim C7: secret material is all-or-nothing and governs canSign -/

/-- C7: for a keypair produced by any factory, the expanded secret is
present exactly when the secret seed is, and `can_sign` reports that
presence; moreover neither public-key factory can ever yield an instance
holding secret material or able to sign. -/
theorem c7_secret_presence (gen sha512fn : List Nat → List Nat)
    (s n p0 nb rb : List Nat) (t tp : List Char) (kp : Keypair)
    (h : new_from_secret_key gen s = Except.ok kp
      ∨ new_from_secret_key_with_nonce gen s n = some (Except.ok kp)
      ∨ new_from_public_key p0 = Except.ok kp
      ∨ from_public_key tp = Except.ok kp
      ∨ from_secret_key gen t = Except.ok kp
      ∨ from_secret_master_key gen sha512fn t nb = some (Except.ok kp)
      ∨ random gen rb = Except.ok kp) :
    (kp.secret_key.isSome ↔ kp.secret_seed.isSome)
    ∧ kp.can_sign = kp.secret_key.isSome
    ∧ Except.map (fun k => k.can_sign || k.secret_key.isSome || k.secret_seed.isSome)
        (new_from_public_key p0) ≠ Except.ok true
    ∧ Except.map (fun k => k.can_sign || k.secret_key.isSome || k.secret_seed.isSome)
        (from_public_key tp) ≠ Except.ok true := by
  refine ⟨?_, rfl, ?_, ?_⟩
  · rcases h with h | h | h | h | h | h | h
    · obtain ⟨_, h2, h3⟩ := new_from_secret_key_ok _ _ _ h
      simp [h2, h3]
    · obtain ⟨_, h2, h3⟩ := new_from_secret_key_with_nonce_ok _ _ _ _ h
      simp [h2, h3]
    · obtain ⟨_, h2, h3⟩ := new_from_public_key_ok _ _ h
      simp [h2, h3]
    · obtain ⟨h2, h3⟩ := from_public_key_ok _ _ h
      simp [h2, h3]
    · obtain ⟨_, _, h2, h3⟩ := from_secret_key_ok _ _ _ h
      simp [h2, h3]
    · obtain ⟨_, _, h2, h3⟩ := from_secret_master_key_ok _ _ _ _ _ h
      simp [h2, h3]
    · obtain ⟨_, h2, h3⟩ := new_from_secret_key_ok _ _ _ h
      simp [h2, h3]
  · simp only [new_from_public_key]
    split
    · simp [Except.map]
    · simp [Except.map, Keypair.can_sign]
  · simp only [from_public_key]
    split
    · simp [Except.map]
    · split
      · simp [Except.map]
      · simp [Except.map, Keypair.can_sign]

/-- Closed witness for C7 through the raw public-key factory. -/
theorem c7_secret_presence_witness :
    (({ public_key := List.replicate 32 0, secret_key := none,
        secret_seed := none } : Keypair).secret_key.isSome ↔
      ({ public_key := List.replicate 32 0, secret_key := none,
         secret_seed := none } : Keypair).secret_seed.isSome)
    ∧ ({ public_key := List.replicate 32 0, secret_key := none,
         secret_seed := none } : Keypair).can_sign =
      ({ public_key := List.replicate 32 0, secret_key := none,
         secret_seed := none } : Keypair).secret_key.isSome
    ∧ Except.map (fun k => k.can_sign || k.secret_key.isSome || k.secret_seed.isSome)
        (new_from_public_key (List.replicate 32 0)) ≠ Except.ok true
    ∧ Except.map (fun k => k.can_sign || k.secret_key.isSome || k.secret_seed.isSome)
        (from_public_key []) ≠ Except.ok true :=
  c7_secret_presence (fun _ => []) (fun _ => []) [] [] (List.replicate 32 0)
    [] [] [] []
    { public_key := List.replicate 32 0, secret_key := none, secret_seed := none }
    (Or.inr (Or.inr (Or.inl rfl)))

/-! ## Claim C8: wrong-length raw inputs are rejected before derivation -/

/-- C8: a raw seed or raw public key whose length is not 32 is rejected
with the length error for every derivation function `gen`, so no
derivation is attempted and no keypair is constructed. -/
theorem c8_invalid_length_rejected (gen : List Nat → List Nat)
    (s n p0 : List Nat) (hs : s.length ≠ 32) (hp : p0.length ≠ 32) :
    from_raw_ed25519_seed gen s = Except.error "secret_key length is invalid"
    ∧ from_raw_ed25519_seed_with_nonce gen s n =
      some (Except.error "secret_key length is invalid")
    ∧ new_from_public_key p0 = Except.error "public_key length is invalid" := by
  refine ⟨?_, ?_, ?_⟩
  · simp [from_raw_ed25519_seed, new_from_secret_key, hs]
  · simp [from_raw_ed25519_seed_with_nonce, new_from_secret_key_with_nonce, hs]
  · simp [new_from_public_key, hp]

/-- Closed witness for C8 on a 0-byte seed and a 1-byte public key. -/
theorem c8_invalid_length_witness :
    from_raw_ed25519_seed (fun _ => []) [] =
      Except.error "secret_key length is invalid"
    ∧ from_raw_ed25519_seed_with_nonce (fun _ => []) [] [5] =
      some (Except.error "secret_key length is invalid")
    ∧ new_from_public_key [1] = Except.error "public_key length is invalid" :=
  c8_invalid_length_rejected (fun _ => []) [] [5] [1] (by decide) (by decide)

/-! ## Claim C9: the empty nonce collapses to direct derivation -/

/-- C9: on a 32-byte seed, the WithNonce factory with an empty nonce and
the direct factory agree on `public_key` and on the 64-byte expanded
`secret_key`. -/
theorem c9_empty_nonce_matches_direct (gen : List Nat → List Nat)
    (s : List Nat) (hs : s.length = 32) :
    ∃ kp1 kp2,
      from_raw_ed25519_seed_with_nonce gen s [] = some (Except.ok kp1)
      ∧ from_raw_ed25519_seed gen s = Except.ok kp2
      ∧ kp1.public_key = kp2.public_key
      ∧ kp1.secret_key = kp2.secret_key := by
  have hns : noncedSeed s [] = s := by simp [noncedSeed]
  refine ⟨{ public_key := gen s, secret_key := some (s ++ gen s),
            secret_seed := some [] },
          { public_key := gen s, secret_key := some (s ++ gen s),
            secret_seed := some s }, ?_, ?_, rfl, rfl⟩
  · simp [from_raw_ed25519_seed_with_nonce, new_from_secret_key_with_nonce, hs, hns]
  · simp [from_raw_ed25519_seed, new_from_secret_key, hs]

/-- Closed witness for C9 on the all-zero seed. -/
theorem c9_empty_nonce_witness :
    ∃ kp1 kp2,
      from_raw_ed25519_seed_with_nonce (fun _ => List.replicate 32 4)
        (List.replicate 32 0) [] = some (Except.ok kp1)
      ∧ from_raw_ed25519_seed (fun _ => List.replicate 32 4)
        (List.replicate 32 0) = Except.ok kp2
      ∧ kp1.public_key = kp2.public_key
      ∧ kp1.secret_key = kp2.secret_key :=
  c9_empty_nonce_matches_direct (fun _ => List.replicate 32 4)
    (List.replicate 32 0) (by simp)

/-! ## Claim C10: master-key derivation never reaches its panicking branches -/

/-- C10: whenever the secret-seed text decodes, `from_secret_master_key`
returns a keypair: the seed handed to `SecretKey::from_bytes` is the
32-byte prefix of the 64-byte SHA-512 digest, so the unwrap and the
in-range slice never panic and the final length check passes. -/
theorem c10_master_key_total (gen sha512fn : List Nat → List Nat)
    (t : List Char) (nb raw : List Nat)
    (hdec : decode_ed25519_secret_seed t = Except.ok raw)
    (hsha : ∀ x, (sha512fn x).length = 64) :
    ∃ kp, from_secret_master_key gen sha512fn t nb = some (Except.ok kp) := by
  have hlen : (sha512fn (raw ++ nb)).length = 64 := hsha _
  have h32 : ((sha512fn (raw ++ nb)).take 32).length = 32 := by
    simp [List.length_take, hlen]
  refine ⟨{ public_key := gen ((sha512fn (raw ++ nb)).take 32),
            secret_key := some ((sha512fn (raw ++ nb)).take 32 ++
              gen ((sha512fn (raw ++ nb)).take 32)),
            secret_seed := some ((sha512fn (raw ++ nb)).take 32) }, ?_⟩
  simp only [from_secret_master_key, hdec]
  rw [if_neg (by rw [hlen]; norm_num)]
  have h2 : secretKey_from_bytes ((sha512fn (raw ++ nb)).take 32) =
      some ((sha512fn (raw ++ nb)).take 32) := by
    simp [secretKey_from_bytes, h32]
  rw [h2]
  simp [from_raw_ed25519_seed, new_from_secret_key, h32]

/-- Closed witness for C10 with a concrete encoded seed and a constant
64-byte digest stand-in. -/
theorem c10_master_key_witness :
    ∃ kp, from_secret_master_key (fun _ => List.replicate 32 0)
        (fun _ => List.replicate 64 5) (encode_check 144 (List.replicate 32 1))
        [] = some (Except.ok kp) :=
  c10_master_key_total (fun _ => List.replicate 32 0) (fun _ => List.replicate 64 5)
    (encode_check 144 (List.replicate 32 1)) [] (List.replicate 32 1)
    (decode_encode_check 144 (List.replicate 32 1) (by norm_num) (by simp)
      (by intro x hx; rw [List.eq_of_mem_replicate hx]; norm_num))
    (fun _ => by simp)

end StellarSdkAdv
